import Mathlib

/-!
# TransRustica — verification of the scene-parallel transcoding core

Shallow embedding, in Lean 4 over `ℚ`, of the quality-search, checkpoint
resume, scene segmentation, assembly, and timecode-formatting logic of
`src/shared/lib.rs`, together with theorems settling the specification
claims about those functions.

Timestamps, CRF values and VMAF scores (Rust `f32`) are modelled as
rationals; file-system and subprocess effects are modelled by explicit
state records and by boolean/`Option` parameters standing for the outcome
of the external tool invocations.
-/

namespace TransRustica

/-! ## QualitySearch: `process_scene_adjust_crf_binary` (src/shared/lib.rs:1521-1687)

The search state carries the mutable locals of the Rust function:
`crf`, `min_crf`, `max_crf`, `best_crf`, `best_vmaf`.  A measurement
is `measure crf`, standing for one pipe-encode of the scene at `crf`
followed by `parse_vmaf_score`; the Rust code turns a failed parse into
the score `0.0` via `unwrap_or(0.0)`, embedded here by `Option.getD`. -/

/-- The mutable locals of `process_scene_adjust_crf_binary`. -/
structure SearchState where
  crf : ℚ
  minCrf : ℚ
  maxCrf : ℚ
  bestCrf : ℚ
  bestVmaf : ℚ
deriving DecidableEq, Repr

/-- Initial state of the search: `crf = 23.0`, `min_crf = 10.0`,
`max_crf = 45.0`, `best_vmaf = 0.0`, `best_crf = crf`
(src/shared/lib.rs:1535-1539). -/
def initState : SearchState :=
  { crf := 23, minCrf := 10, maxCrf := 45, bestCrf := 23, bestVmaf := 0 }

/-- Outcome of one iteration of the `while` loop: either the loop `break`s
(early accept, or degenerate range `min_crf > max_crf`) or continues. -/
inductive IterOut where
  | stop (s : SearchState)
  | next (s : SearchState)
deriving DecidableEq, Repr

/-- The `else if` chain of the loop body (src/shared/lib.rs:1620-1658):
the four step-size bands on the absolute error, and otherwise the
bound-tightening bisection update.  Only `crf`, `min_crf`, `max_crf`
change; the best estimates are untouched here. -/
def bandStep (target score : ℚ) (s : SearchState) : SearchState :=
  if |target - score| ≤ 3 ∧ |target - score| > 2 then
    { s with crf := if score > target then s.crf + 3 else s.crf - 3 }
  else if |target - score| ≤ 2 ∧ |target - score| > 1 then
    { s with crf := if score > target then s.crf + 2 else s.crf - 2 }
  else if |target - score| ≤ 1 ∧ |target - score| > 4/5 then
    { s with crf := if score > target then s.crf + 1 else s.crf - 1 }
  else if |target - score| ≤ 4/5 ∧ |target - score| > 1/2 then
    { s with crf := if score > target then s.crf + 1/2 else s.crf - 1/2 }
  else
    let mn := if score > target then s.crf - 1 else s.minCrf
    let mx := if score > target then s.maxCrf else s.crf + 1
    { s with minCrf := mn, maxCrf := mx, crf := mn + (mx - mn) / 2 }

/-- The best-estimate update at the bottom of the loop body
(src/shared/lib.rs:1674-1677).  Note that the Rust code runs it *after*
`crf` has been stepped, so the recorded `best_crf` is the already adjusted
value, not the one the probe was encoded at. -/
def bestUpdate (target score : ℚ) (s : SearchState) : SearchState :=
  if |target - score| < |target - s.bestVmaf| then
    { s with bestCrf := s.crf, bestVmaf := score }
  else s

/-- One iteration of the `while` loop of `process_scene_adjust_crf_binary`
after the VMAF score `score` of the current probe has been obtained
(src/shared/lib.rs:1615-1679): early accept at error ≤ 0.5, then the
band/bisection step, then the `min_crf > max_crf` break (which skips the
best-estimate update), then the best-estimate update. -/
def searchIter (target score : ℚ) (s : SearchState) : IterOut :=
  if |target - score| ≤ 1/2 then
    .stop { s with bestCrf := s.crf, bestVmaf := score }
  else
    if (bandStep target score s).minCrf > (bandStep target score s).maxCrf then
      .stop (bandStep target score s)
    else
      .next (bestUpdate target score (bandStep target score s))

/-- The VMAF score the Rust code works with: the parsed score of the probe,
or `0.0` when parsing failed (`parse_vmaf_score(&vmaf).unwrap_or(0.0)`,
src/shared/lib.rs:1578). -/
def measuredScore (measure : ℚ → Option ℚ) (crf : ℚ) : ℚ :=
  (measure crf).getD 0

/-- The `while iteration <= max_iterations` loop, returning the final state
together with the list of probes `(crf, score)` pushed into the shared
`vmaf_scores` log (src/shared/lib.rs:1564-1680).  `fuel` is the number of
remaining iterations, initially `max_iterations = 3`. -/
def searchLoop (target : ℚ) (measure : ℚ → Option ℚ) :
    ℕ → SearchState → SearchState × List (ℚ × ℚ)
  | 0, s => (s, [])
  | fuel + 1, s =>
    let score := measuredScore measure s.crf
    match searchIter target score s with
    | .stop s1 => (s1, [(s.crf, score)])
    | .next s1 =>
      let r := searchLoop target measure fuel s1
      (r.1, (s.crf, score) :: r.2)

/-- `process_scene_adjust_crf_binary`: run up to 3 iterations from
`initState`, then return `Ok((best_crf, best_vmaf))` when `best_vmaf != 0.0`
and `Err(..)` otherwise (src/shared/lib.rs:1682-1686). -/
def processSceneAdjustCrfBinary (target : ℚ) (measure : ℚ → Option ℚ) :
    Except String (ℚ × ℚ) :=
  let s := (searchLoop target measure 3 initState).1
  if s.bestVmaf ≠ 0 then .ok (s.bestCrf, s.bestVmaf)
  else .error "Failed to adjust CRF to target VMAF score within max iterations"

/-- The ordered probe log `(crf, score)` of one search run, as pushed into
the shared `vmaf_scores` vector. -/
def probeLog (target : ℚ) (measure : ℚ → Option ℚ) : List (ℚ × ℚ) :=
  (searchLoop target measure 3 initState).2

/-- The state a loop iteration ends in, whether it broke or continued. -/
def iterState : IterOut → SearchState
  | .stop s => s
  | .next s => s

/-! ## SceneWorkerPool: the per-scene worker closure
(src/shared/lib.rs:1278-1441) and `process_video_scene_encoded`
(src/shared/lib.rs:1791-1993) -/

/-- The externally visible effects of one worker closure that matter to the
checkpoint claims: whether an encode failure was logged, whether a line was
appended to the size ledger `chunks.txt`, and whether the scene index was
appended to the completed-index checkpoint `done.txt`. -/
structure WorkerEffect where
  loggedEncodeFailure : Bool
  chunkAppended : Bool
  doneAppended : Bool
deriving DecidableEq, Repr

/-- `process_video_scene_encoded` as seen by the caller: it returns `Err`
only when spawning or waiting on the encoder subprocess fails (the `?`
operators, src/shared/lib.rs:1894,1979); a non-zero exit status and
unparseable stderr are *not* errors — the function still returns
`Ok((output, return_size))`, with `return_size` left at its initial `0`
when no size line was parsed (src/shared/lib.rs:1827,1990-1992).
`spawnOk` is the outcome of the spawn/wait calls, `exitOk` the encoder's
exit status (ignored by the source), `parsedSize` the size parsed from the
encoder's stderr, if any. -/
def processVideoSceneEncoded (spawnOk : Bool) (_exitOk : Bool)
    (parsedSize : Option ℤ) : Except String ℤ :=
  if spawnOk then .ok (parsedSize.getD 0) else .error "spawn failure"

/-- The worker closure of
`run_ffmpeg_extract_scene_changes_pipe_vmaf_target_threaded`
(src/shared/lib.rs:1288-1440): when the quality search returns `Ok`, the
scene is encoded; an encode `Err` is only printed
(src/shared/lib.rs:1314-1315), after which the worker unconditionally
pushes to `chunk_sizes`/`chunks.txt` and appends the scene index to
`done.txt` (src/shared/lib.rs:1334-1426).  When the search returns `Err`,
the whole block is skipped. -/
def sceneWorker (searchResult : Except String (ℚ × ℚ))
    (encodeResult : Except String ℤ) : WorkerEffect :=
  match searchResult with
  | .error _ =>
      { loggedEncodeFailure := false, chunkAppended := false, doneAppended := false }
  | .ok _ =>
      match encodeResult with
      | .error _ =>
          { loggedEncodeFailure := true, chunkAppended := true, doneAppended := true }
      | .ok _ =>
          { loggedEncodeFailure := false, chunkAppended := true, doneAppended := true }

/-! ## Concrete measurement functions used as inputs to the theorems -/

/-- Deterministic measurement: VMAF 90 at CRF 23, 80 at CRF 17, 85 at
CRF 14 (the CRFs probed by a run at target 95), 0 elsewhere. -/
def mC2 : ℚ → Option ℚ := fun c =>
  if c = 23 then some 90 else if c = 17 then some 80
  else if c = 14 then some 85 else some 0

/-- Deterministic measurement: every probe parses successfully and scores
VMAF 100. -/
def mC6 : ℚ → Option ℚ := fun _ => some 100

/-- Deterministic measurement: every probe parses successfully and scores
VMAF 5. -/
def mW6 : ℚ → Option ℚ := fun _ => some 5

/-! ## Lemmas about the search loop -/

/-- Unfolding lemma: one iteration of `searchLoop` that breaks. -/
lemma searchLoop_succ_stop (t : ℚ) (m : ℚ → Option ℚ) (fuel : ℕ)
    (s s1 : SearchState)
    (hi : searchIter t (measuredScore m s.crf) s = .stop s1) :
    searchLoop t m (fuel + 1) s = (s1, [(s.crf, measuredScore m s.crf)]) := by
  show (match searchIter t (measuredScore m s.crf) s with
        | .stop s1 => (s1, [(s.crf, measuredScore m s.crf)])
        | .next s1 =>
          let r := searchLoop t m fuel s1
          (r.1, (s.crf, measuredScore m s.crf) :: r.2)) =
      (s1, [(s.crf, measuredScore m s.crf)])
  rw [hi]

/-- Unfolding lemma: one iteration of `searchLoop` that continues. -/
lemma searchLoop_succ_next (t : ℚ) (m : ℚ → Option ℚ) (fuel : ℕ)
    (s s1 : SearchState)
    (hi : searchIter t (measuredScore m s.crf) s = .next s1) :
    searchLoop t m (fuel + 1) s =
      ((searchLoop t m fuel s1).1,
        (s.crf, measuredScore m s.crf) :: (searchLoop t m fuel s1).2) := by
  show (match searchIter t (measuredScore m s.crf) s with
        | .stop s1 => (s1, [(s.crf, measuredScore m s.crf)])
        | .next s1 =>
          let r := searchLoop t m fuel s1
          (r.1, (s.crf, measuredScore m s.crf) :: r.2)) =
      ((searchLoop t m fuel s1).1,
        (s.crf, measuredScore m s.crf) :: (searchLoop t m fuel s1).2)
  rw [hi]

/-- The band/bisection step never changes the best estimates. -/
lemma bandStep_bestVmaf (t v : ℚ) (s : SearchState) :
    (bandStep t v s).bestVmaf = s.bestVmaf := by
  unfold bandStep; split_ifs <;> rfl

/-- One non-accepting iteration whose probe is at distance ≥ `target` from
the target never moves `best_vmaf` away from `0`. -/
lemma searchIter_best_eq_zero (t v : ℚ) (s : SearchState)
    (ht : 1/2 < t) (hv : ¬ |t - v| ≤ 1/2) (hfar : t ≤ |t - v|)
    (hbest : s.bestVmaf = 0) :
    (iterState (searchIter t v s)).bestVmaf = 0 := by
  have hband : (bandStep t v s).bestVmaf = 0 := by
    rw [bandStep_bestVmaf]; exact hbest
  have hupd : bestUpdate t v (bandStep t v s) = bandStep t v s := by
    unfold bestUpdate
    rw [if_neg]
    rw [hband, sub_zero, abs_of_pos (show (0:ℚ) < t by linarith)]
    intro hlt; linarith
  unfold searchIter
  rw [if_neg hv]
  simp only [hupd]
  split_ifs <;> simpa [iterState] using hband

/-- If every probe in the log of a run from a `best_vmaf = 0` state is at
distance ≥ `target` from the target, `best_vmaf` is still `0` at exit. -/
lemma searchLoop_best_eq_zero (t : ℚ) (m : ℚ → Option ℚ) (ht : 1/2 < t) :
    ∀ (fuel : ℕ) (s : SearchState), s.bestVmaf = 0 →
      (∀ p ∈ (searchLoop t m fuel s).2, t ≤ |t - p.2|) →
      (searchLoop t m fuel s).1.bestVmaf = 0 := by
  intro fuel
  induction fuel with
  | zero => intro s hb _; exact hb
  | succ n ih =>
    intro s hb hfar
    have hfar1 : t ≤ |t - measuredScore m s.crf| := by
      rcases hi : searchIter t (measuredScore m s.crf) s with s1 | s1
      · refine hfar (s.crf, measuredScore m s.crf) ?_
        rw [searchLoop_succ_stop t m n s s1 hi]
        exact List.mem_cons_self _ _
      · refine hfar (s.crf, measuredScore m s.crf) ?_
        rw [searchLoop_succ_next t m n s s1 hi]
        exact List.mem_cons_self _ _
    have hv : ¬ |t - measuredScore m s.crf| ≤ 1/2 := by
      intro hle; linarith
    have hbest1 := searchIter_best_eq_zero t (measuredScore m s.crf) s ht hv hfar1 hb
    rcases hi : searchIter t (measuredScore m s.crf) s with s1 | s1
    · rw [hi] at hbest1
      rw [searchLoop_succ_stop t m n s s1 hi]
      exact hbest1
    · rw [hi] at hbest1
      rw [searchLoop_succ_next t m n s s1 hi]
      refine ih s1 hbest1 ?_
      intro p hp
      refine hfar p ?_
      rw [searchLoop_succ_next t m n s s1 hi]
      exact List.mem_cons_of_mem _ hp

/-- Projection lemma: in a non-accepting iteration, the `crf`, `min_crf`
and `max_crf` a loop iteration ends with are those produced by the
band/bisection step (the best-estimate update touches neither). -/
lemma searchIter_proj (t v : ℚ) (s : SearchState) (hv : ¬ |t - v| ≤ 1/2) :
    (iterState (searchIter t v s)).crf = (bandStep t v s).crf ∧
    (iterState (searchIter t v s)).minCrf = (bandStep t v s).minCrf ∧
    (iterState (searchIter t v s)).maxCrf = (bandStep t v s).maxCrf := by
  unfold searchIter
  rw [if_neg hv]
  split_ifs with h1
  · exact ⟨rfl, rfl, rfl⟩
  · unfold bestUpdate iterState
    split_ifs <;> exact ⟨rfl, rfl, rfl⟩

/-- C1. In every iteration of `process_scene_adjust_crf_binary`, with
error `e = |target - score|`: if `e ≤ 0.5` the current `(crf, score)` is
accepted into the best estimates and the loop stops; if `2 < e ≤ 3` the
CRF is stepped by `3.0`, if `1 < e ≤ 2` by `2.0`, if `0.8 < e ≤ 1` by
`1.0`, if `0.5 < e ≤ 0.8` by `0.5` — in each band upward when the measured
score is above the target and downward when below, with the `min`/`max`
bounds untouched; otherwise (`e > 3`) the bounds are tightened toward the
side implied by the over/undershoot (`min = crf - 1` on overshoot,
`max = crf + 1` on undershoot) and the CRF is set to
`min + (max - min) / 2`. -/
theorem C1_step_policy (t v : ℚ) (s : SearchState) :
    (|t - v| ≤ 1/2 →
      searchIter t v s = .stop { s with bestCrf := s.crf, bestVmaf := v }) ∧
    (2 < |t - v| ∧ |t - v| ≤ 3 →
      (iterState (searchIter t v s)).crf = (if v > t then s.crf + 3 else s.crf - 3) ∧
      (iterState (searchIter t v s)).minCrf = s.minCrf ∧
      (iterState (searchIter t v s)).maxCrf = s.maxCrf) ∧
    (1 < |t - v| ∧ |t - v| ≤ 2 →
      (iterState (searchIter t v s)).crf = (if v > t then s.crf + 2 else s.crf - 2) ∧
      (iterState (searchIter t v s)).minCrf = s.minCrf ∧
      (iterState (searchIter t v s)).maxCrf = s.maxCrf) ∧
    (4/5 < |t - v| ∧ |t - v| ≤ 1 →
      (iterState (searchIter t v s)).crf = (if v > t then s.crf + 1 else s.crf - 1) ∧
      (iterState (searchIter t v s)).minCrf = s.minCrf ∧
      (iterState (searchIter t v s)).maxCrf = s.maxCrf) ∧
    (1/2 < |t - v| ∧ |t - v| ≤ 4/5 →
      (iterState (searchIter t v s)).crf = (if v > t then s.crf + 1/2 else s.crf - 1/2) ∧
      (iterState (searchIter t v s)).minCrf = s.minCrf ∧
      (iterState (searchIter t v s)).maxCrf = s.maxCrf) ∧
    (3 < |t - v| →
      (iterState (searchIter t v s)).minCrf = (if v > t then s.crf - 1 else s.minCrf) ∧
      (iterState (searchIter t v s)).maxCrf = (if v > t then s.maxCrf else s.crf + 1) ∧
      (iterState (searchIter t v s)).crf =
        (iterState (searchIter t v s)).minCrf +
          ((iterState (searchIter t v s)).maxCrf -
            (iterState (searchIter t v s)).minCrf) / 2) := by
  refine ⟨?_, ?_, ?_, ?_, ?_, ?_⟩
  · intro h
    unfold searchIter
    rw [if_pos h]
  · rintro ⟨h1, h2⟩
    obtain ⟨hc, hmn, hmx⟩ := searchIter_proj t v s (by intro hh; linarith)
    have hb : bandStep t v s = { s with crf := if v > t then s.crf + 3 else s.crf - 3 } := by
      unfold bandStep
      rw [if_pos ⟨h2, h1⟩]
    rw [hc, hmn, hmx, hb]
    exact ⟨rfl, rfl, rfl⟩
  · rintro ⟨h1, h2⟩
    obtain ⟨hc, hmn, hmx⟩ := searchIter_proj t v s (by intro hh; linarith)
    have hb : bandStep t v s = { s with crf := if v > t then s.crf + 2 else s.crf - 2 } := by
      unfold bandStep
      rw [if_neg (by rintro ⟨ha, hbb⟩; linarith), if_pos ⟨h2, h1⟩]
    rw [hc, hmn, hmx, hb]
    exact ⟨rfl, rfl, rfl⟩
  · rintro ⟨h1, h2⟩
    obtain ⟨hc, hmn, hmx⟩ := searchIter_proj t v s (by intro hh; linarith)
    have hb : bandStep t v s = { s with crf := if v > t then s.crf + 1 else s.crf - 1 } := by
      unfold bandStep
      rw [if_neg (by rintro ⟨ha, hbb⟩; linarith),
          if_neg (by rintro ⟨ha, hbb⟩; linarith), if_pos ⟨h2, h1⟩]
    rw [hc, hmn, hmx, hb]
    exact ⟨rfl, rfl, rfl⟩
  · rintro ⟨h1, h2⟩
    obtain ⟨hc, hmn, hmx⟩ := searchIter_proj t v s (by intro hh; linarith)
    have hb : bandStep t v s = { s with crf := if v > t then s.crf + 1/2 else s.crf - 1/2 } := by
      unfold bandStep
      rw [if_neg (by rintro ⟨ha, hbb⟩; linarith),
          if_neg (by rintro ⟨ha, hbb⟩; linarith),
          if_neg (by rintro ⟨ha, hbb⟩; linarith), if_pos ⟨h2, h1⟩]
    rw [hc, hmn, hmx, hb]
    exact ⟨rfl, rfl, rfl⟩
  · intro h1
    obtain ⟨hc, hmn, hmx⟩ := searchIter_proj t v s (by intro hh; linarith)
    have hb : bandStep t v s =
        { s with minCrf := if v > t then s.crf - 1 else s.minCrf,
                 maxCrf := if v > t then s.maxCrf else s.crf + 1,
                 crf := (if v > t then s.crf - 1 else s.minCrf) +
                   ((if v > t then s.maxCrf else s.crf + 1) -
                     (if v > t then s.crf - 1 else s.minCrf)) / 2 } := by
      unfold bandStep
      rw [if_neg (by rintro ⟨ha, hbb⟩; linarith),
          if_neg (by rintro ⟨ha, hbb⟩; linarith),
          if_neg (by rintro ⟨ha, hbb⟩; linarith),
          if_neg (by rintro ⟨ha, hbb⟩; linarith)]
    rw [hc, hmn, hmx, hb]
    exact ⟨rfl, rfl, rfl⟩

/-- Witness for C1 at a concrete input: target 95, score 92
(`e = 3`, in the `2 < e ≤ 3` band, undershoot), from the initial state:
the CRF is stepped down by 3 to 20. -/
theorem C1_step_policy_witness :
    (2 < |(95:ℚ) - 92| ∧ |(95:ℚ) - 92| ≤ 3) ∧
    (iterState (searchIter 95 92 initState)).crf = 20 := by
  have hband : 2 < |(95:ℚ) - 92| ∧ |(95:ℚ) - 92| ≤ 3 := by norm_num
  refine ⟨hband, ?_⟩
  have h := ((C1_step_policy 95 92 initState).2.1) hband
  rw [h.1, if_neg (by norm_num)]
  norm_num [initState]

/-- C2 (code bug).  At target 95 with the deterministic measurement `mC2`
the search returns `Ok((17, 90))`, yet VMAF 90 was measured at CRF 23 and
the probe at CRF 17 measured VMAF 80: the returned pair is not a measured
`(crf, vmaf)` pair, because the Rust code assigns `best_crf = crf` only
*after* `crf` has been stepped away from the probed value
(src/shared/lib.rs:1674-1677). -/
theorem C2_best_pair_not_measured :
    processSceneAdjustCrfBinary 95 mC2 = .ok (17, 90) ∧
    probeLog 95 mC2 = [(23, 90), (17, 80), (14, 85)] ∧
    mC2 23 = some 90 ∧ mC2 17 = some 80 := by
  refine ⟨?_, ?_, ?_, ?_⟩ <;>
    norm_num [processSceneAdjustCrfBinary, probeLog, searchLoop, searchIter,
      bandStep, bestUpdate, measuredScore, mC2, initState]

/-- C3 (code bug).  A scene whose quality search succeeded but whose
full-quality encode failed is still appended to the completed-index
checkpoint `done.txt`: a non-zero encoder exit status with unparseable
output is not even reported as an error by `process_video_scene_encoded`
(it yields `Ok` with size 0), and an encode spawn failure is logged but
the worker still appends the index to `done.txt`. -/
theorem C3_failed_encode_still_checkpointed :
    processVideoSceneEncoded true false none = .ok 0 ∧
    sceneWorker (.ok (17, 90)) (processVideoSceneEncoded true false none) =
      { loggedEncodeFailure := false, chunkAppended := true, doneAppended := true } ∧
    sceneWorker (.ok (17, 90)) (.error "spawn failure") =
      { loggedEncodeFailure := true, chunkAppended := true, doneAppended := true } :=
  ⟨rfl, rfl, rfl⟩

/-- C6, counterexample to the claim as stated.  At target 40 every probe's
measurement succeeds with VMAF 100, yet the search returns a convergence
failure: "failure iff no measurement ever succeeded" is false, since a
probe only enters `best` when strictly closer to the target than the
initial `best_vmaf = 0`, and `|40 - 100| = 60 ≥ 40`. -/
theorem C6_counterexample :
    processSceneAdjustCrfBinary 40 mC6 =
      .error "Failed to adjust CRF to target VMAF score within max iterations" ∧
    probeLog 40 mC6 = [(23, 100), (67/2, 100), (155/4, 100)] ∧
    (100 : ℚ) ≠ 0 := by
  refine ⟨?_, ?_, by norm_num⟩ <;>
    norm_num [processSceneAdjustCrfBinary, probeLog, searchLoop, searchIter,
      bandStep, bestUpdate, measuredScore, mC6, initState]

/-- C6, amended.  The search reports success with the tracked best pair
exactly when `best_vmaf != 0` at loop exit; a probe's score `v` enters
`best` only when strictly closer to the target than the running best
(initially 0), so for a target `t > 0.5` the search returns a convergence
failure whenever every measured score `v` satisfies `|t - v| ≥ t` — even
when every measurement succeeded.  On such a failure the worker skips its
whole post-search block, so the scene's index is not appended to
`done.txt` and the scene is retried on the next run. -/
theorem C6_failure_condition (t : ℚ) (m : ℚ → Option ℚ) (ht : 1/2 < t)
    (hfar : ∀ p ∈ probeLog t m, t ≤ |t - p.2|) :
    processSceneAdjustCrfBinary t m =
      .error "Failed to adjust CRF to target VMAF score within max iterations" ∧
    ∀ (e : String) (enc : Except String ℤ),
      sceneWorker (.error e) enc =
        { loggedEncodeFailure := false, chunkAppended := false, doneAppended := false } := by
  constructor
  · have hz := searchLoop_best_eq_zero t m ht 3 initState rfl hfar
    unfold processSceneAdjustCrfBinary
    rw [if_neg (by simpa using hz)]
  · intro e enc
    rfl

/-- Witness for the amended C6 at target 1 with every probe scoring
VMAF 5: all three measurements succeed but are at distance 4 ≥ 1 from the
target, and the search fails. -/
theorem C6_failure_condition_witness :
    (1/2 : ℚ) < 1 ∧
    processSceneAdjustCrfBinary 1 mW6 =
      .error "Failed to adjust CRF to target VMAF score within max iterations" := by
  refine ⟨by norm_num, ?_⟩
  refine (C6_failure_condition 1 mW6 (by norm_num) ?_).1
  intro p hp
  have hlog : probeLog 1 mW6 = [(23, 5), (67/2, 5), (155/4, 5)] := by
    norm_num [probeLog, searchLoop, searchIter, bandStep, bestUpdate,
      measuredScore, mW6, initState]
  rw [hlog] at hp
  simp only [List.mem_cons, List.not_mem_nil, or_false] at hp
  rcases hp with rfl | rfl | rfl <;> norm_num

/-! ## SceneSegmenter: `run_ffmpeg_scene_change` (src/shared/lib.rs:926-1041)
and the scene construction of the threaded driver
(src/shared/lib.rs:1076-1083) -/

/-- The boundary-keeping loop (src/shared/lib.rs:981-1023): for each
detected `pts_time`, skip it when it is closer than `scene_split_min` to
the most recently kept boundary (`last`), otherwise keep it. -/
def keepBoundaries (minSplit : ℚ) : ℚ → List ℚ → List ℚ
  | _, [] => []
  | last, t :: ts =>
    if t - last < minSplit then keepBoundaries minSplit last ts
    else t :: keepBoundaries minSplit t ts

/-- `run_ffmpeg_scene_change`: the list starts with `0.0`
(src/shared/lib.rs:979), detected boundaries are filtered against the
minimum scene duration, and the measured total duration is pushed at the
end (src/shared/lib.rs:1038). -/
def sceneChangesList (minSplit duration : ℚ) (detected : List ℚ) : List ℚ :=
  (0 :: keepBoundaries minSplit 0 detected) ++ [duration]

/-- `scene_changes_locked.windows(2)` (src/shared/lib.rs:1079): the list
of consecutive boundary pairs. -/
def windowPairs : List ℚ → List (ℚ × ℚ)
  | a :: b :: rest => (a, b) :: windowPairs (b :: rest)
  | _ => []

/-- The indexing loop of the threaded driver: each window becomes
`(i, window[0], window[1])` with `i` counting from the given start
(src/shared/lib.rs:1077-1083). -/
def buildScenesFrom (i : ℕ) : List (ℚ × ℚ) → List (ℕ × ℚ × ℚ)
  | [] => []
  | p :: ps => (i, p.1, p.2) :: buildScenesFrom (i + 1) ps

/-- The scene list `(index, start, end)` built from a boundary list,
indices counted from 0 in chronological order. -/
def buildScenes (bs : List ℚ) : List (ℕ × ℚ × ℚ) :=
  buildScenesFrom 0 (windowPairs bs)

/-- Kept boundaries are a sublist of the detected ones. -/
lemma keepBoundaries_sublist (m : ℚ) :
    ∀ (last : ℚ) (ds : List ℚ), List.Sublist (keepBoundaries m last ds) ds := by
  intro last ds
  induction ds generalizing last with
  | nil => simp [keepBoundaries]
  | cons t ts ih =>
    rw [keepBoundaries]
    split_ifs
    · exact (ih last).cons t
    · exact (ih t).cons₂ t

/-- Each kept boundary is at least `minSplit` after its predecessor. -/
lemma keepBoundaries_chain (m : ℚ) :
    ∀ (last : ℚ) (ds : List ℚ),
      List.Chain (fun a b => m ≤ b - a) last (keepBoundaries m last ds) := by
  intro last ds
  induction ds generalizing last with
  | nil => exact List.Chain.nil
  | cons t ts ih =>
    rw [keepBoundaries]
    split_ifs with h
    · exact ih last
    · exact List.Chain.cons (by linarith) (ih t)

/-- The second component of each window pair is the first of the next. -/
lemma windowPairs_chain (l : List ℚ) :
    List.Chain' (fun p q : ℚ × ℚ => p.2 = q.1) (windowPairs l) := by
  induction l with
  | nil => simp [windowPairs]
  | cons a t ih =>
    cases t with
    | nil => simp [windowPairs]
    | cons b t2 =>
      rw [show windowPairs (a :: b :: t2) = (a, b) :: windowPairs (b :: t2) from rfl]
      cases t2 with
      | nil => simp [windowPairs]
      | cons c t3 =>
        rw [show windowPairs (b :: c :: t3) = (b, c) :: windowPairs (c :: t3) from rfl] at ih ⊢
        exact List.Chain'.cons rfl ih

/-- Both endpoints of a window pair are elements of the list. -/
lemma windowPairs_mem (l : List ℚ) :
    ∀ p ∈ windowPairs l, p.1 ∈ l ∧ p.2 ∈ l := by
  induction l with
  | nil => simp [windowPairs]
  | cons a t ih =>
    cases t with
    | nil => simp [windowPairs]
    | cons b t2 =>
      intro p hp
      rw [show windowPairs (a :: b :: t2) = (a, b) :: windowPairs (b :: t2) from rfl] at hp
      rcases List.mem_cons.mp hp with h | h
      · rw [h]
        exact ⟨List.mem_cons_self _ _, List.mem_cons_of_mem _ (List.mem_cons_self _ _)⟩
      · have := ih p h
        exact ⟨List.mem_cons_of_mem _ this.1, List.mem_cons_of_mem _ this.2⟩

/-- Dropping the indices from the built scenes recovers the window pairs. -/
lemma buildScenesFrom_map_snd :
    ∀ (i : ℕ) (ps : List (ℚ × ℚ)),
      (buildScenesFrom i ps).map (fun s => (s.2.1, s.2.2)) = ps := by
  intro i ps
  induction ps generalizing i with
  | nil => rfl
  | cons p ps ih => simp [buildScenesFrom, ih]

/-- `a ∈ l.getLast?` implies `a ∈ l`. -/
lemma mem_of_mem_getLast? {l : List ℚ} {a : ℚ} (h : a ∈ l.getLast?) : a ∈ l := by
  rcases List.mem_getLast?_eq_getLast h with ⟨hne, heq⟩
  rw [heq]
  exact List.getLast_mem hne

/-- The head of a chain-ordered list followed by a trailing element is at
most that trailing element. -/
lemma chain_head_le_concat :
    ∀ (ys : List ℚ) (y c : ℚ), List.Chain' (· ≤ ·) (y :: ys ++ [c]) → y ≤ c := by
  intro ys
  induction ys with
  | nil =>
    intro y c h
    exact List.Chain'.rel_head h
  | cons y1 t ih =>
    intro y c h
    rcases List.chain'_cons.mp h with ⟨h1, h2⟩
    exact le_trans h1 (ih y1 c h2)

/-- The consecutive pairs of a `≤`-sorted boundary list with head `a` and
trailing element `c` cover exactly the interval `[a, c]`. -/
lemma windowPairs_cover :
    ∀ (l : List ℚ) (a c : ℚ), List.Chain' (· ≤ ·) (a :: l ++ [c]) →
      ∀ x : ℚ, (a ≤ x ∧ x ≤ c) ↔
        ∃ p ∈ windowPairs (a :: l ++ [c]), p.1 ≤ x ∧ x ≤ p.2 := by
  intro l
  induction l with
  | nil =>
    intro a c _ x
    constructor
    · rintro ⟨h1, h2⟩
      exact ⟨(a, c), by simp [windowPairs], h1, h2⟩
    · rintro ⟨p, hp, h1, h2⟩
      have : p = (a, c) := by simpa [windowPairs] using hp
      rw [this] at h1 h2
      exact ⟨h1, h2⟩
  | cons b t ih =>
    intro a c h x
    rcases List.chain'_cons.mp h with ⟨hab, h2⟩
    have hbc : b ≤ c := chain_head_le_concat t b c h2
    have hwp : windowPairs (a :: (b :: t) ++ [c]) =
        (a, b) :: windowPairs (b :: t ++ [c]) := rfl
    constructor
    · rintro ⟨hax, hxc⟩
      by_cases hxb : x ≤ b
      · exact ⟨(a, b), by rw [hwp]; exact List.mem_cons_self _ _, hax, hxb⟩
      · have hbx : b ≤ x := le_of_lt (not_le.mp hxb)
        rcases (ih b c h2 x).mp ⟨hbx, hxc⟩ with ⟨p, hp, hp1, hp2⟩
        exact ⟨p, by rw [hwp]; exact List.mem_cons_of_mem _ hp, hp1, hp2⟩
    · rintro ⟨p, hp, hp1, hp2⟩
      rw [hwp] at hp
      rcases List.mem_cons.mp hp with hcase | hcase
      · rw [hcase] at hp1 hp2
        exact ⟨hp1, le_trans hp2 hbc⟩
      · have := (ih b c h2 x).mpr ⟨p, hcase, hp1, hp2⟩
        exact ⟨le_trans hab this.1, this.2⟩

/-- Every consecutive pair of a chain-ordered list starts no earlier than
the list's head. -/
lemma windowPairs_head_le :
    ∀ (ys : List ℚ) (y : ℚ), List.Chain' (· ≤ ·) (y :: ys) →
      ∀ q ∈ windowPairs (y :: ys), y ≤ q.1 := by
  intro ys
  induction ys with
  | nil => intro y _ q hq; simp [windowPairs] at hq
  | cons y1 t ih =>
    intro y h q hq
    rcases List.chain'_cons.mp h with ⟨h1, h2⟩
    rcases List.mem_cons.mp hq with hcase | hcase
    · rw [hcase]
    · exact le_trans h1 (ih y1 h2 q hcase)

/-- On a `≤`-sorted boundary list, any earlier pair ends no later than any
later pair starts (scenes do not overlap). -/
lemma windowPairs_pairwise :
    ∀ (l : List ℚ), List.Chain' (· ≤ ·) l →
      List.Pairwise (fun p q : ℚ × ℚ => p.2 ≤ q.1) (windowPairs l) := by
  intro l
  induction l with
  | nil => simp [windowPairs]
  | cons a t ih =>
    intro h
    cases t with
    | nil => simp [windowPairs]
    | cons b t2 =>
      rcases List.chain'_cons.mp h with ⟨h1, h2⟩
      rw [show windowPairs (a :: b :: t2) = (a, b) :: windowPairs (b :: t2) from rfl]
      exact List.Pairwise.cons (fun q hq => windowPairs_head_le t2 b h2 q hq) (ih h2)

/-- The boundary list produced by `run_ffmpeg_scene_change` is sorted when
the minimum split is positive and every detected boundary lies within the
file's duration. -/
lemma sceneChangesList_chain (m d : ℚ) (detected : List ℚ)
    (hm : 0 < m) (hd : 0 ≤ d) (hdet : ∀ b ∈ detected, b ≤ d) :
    List.Chain' (· ≤ ·) (sceneChangesList m d detected) := by
  unfold sceneChangesList
  refine List.Chain'.append ?_ (List.chain'_singleton d) ?_
  · show List.Chain (· ≤ ·) 0 (keepBoundaries m 0 detected)
    exact (keepBoundaries_chain m 0 detected).imp (fun a b h => by linarith)
  · intro xx hx y hy
    have hyd : d = y := by simpa using hy
    rw [← hyd]
    have hxx : xx ∈ (0 :: keepBoundaries m 0 detected) := mem_of_mem_getLast? hx
    rcases List.mem_cons.mp hxx with h0 | hk
    · rw [h0]; exact hd
    · exact hdet xx ((keepBoundaries_sublist m 0 detected).mem hk)

/-- C7.  For every detected boundary sequence (boundaries within the
measured duration, positive minimum scene duration), the boundary list
begins with `0.0` and ends with the duration, the scene list built from
consecutive boundary pairs is nonempty even with no detected boundary,
consecutive scenes satisfy `scene[i].end = scene[i+1].start`, and the
scenes cover `[0, duration]` with no gaps (every point lies in some scene)
and no overlaps (earlier scenes end before later scenes start). -/
theorem C7_scene_partition (m d : ℚ) (detected : List ℚ)
    (hm : 0 < m) (hd : 0 ≤ d) (hdet : ∀ b ∈ detected, b ≤ d) :
    (sceneChangesList m d detected).head? = some 0 ∧
    (sceneChangesList m d detected).getLast? = some d ∧
    buildScenes (sceneChangesList m d detected) ≠ [] ∧
    List.Chain' (fun s r : ℕ × ℚ × ℚ => s.2.2 = r.2.1)
      (buildScenes (sceneChangesList m d detected)) ∧
    (∀ x : ℚ, (0 ≤ x ∧ x ≤ d) ↔
      ∃ s ∈ buildScenes (sceneChangesList m d detected), s.2.1 ≤ x ∧ x ≤ s.2.2) ∧
    List.Pairwise (fun s r : ℕ × ℚ × ℚ => s.2.2 ≤ r.2.1)
      (buildScenes (sceneChangesList m d detected)) := by
  have hchain := sceneChangesList_chain m d detected hm hd hdet
  have hmapeq : (buildScenes (sceneChangesList m d detected)).map
      (fun s => (s.2.1, s.2.2)) = windowPairs (sceneChangesList m d detected) :=
    buildScenesFrom_map_snd 0 _
  refine ⟨rfl, ?_, ?_, ?_, ?_, ?_⟩
  · unfold sceneChangesList
    exact List.getLast?_concat _
  · unfold buildScenes sceneChangesList
    cases hk : keepBoundaries m 0 detected with
    | nil => simp [windowPairs, buildScenesFrom]
    | cons a t => simp [windowPairs, buildScenesFrom]
  · have h := windowPairs_chain (sceneChangesList m d detected)
    rw [← hmapeq] at h
    have h2 := (List.chain'_map (fun s : ℕ × ℚ × ℚ => (s.2.1, s.2.2))).mp h
    exact h2.imp (fun a b hab => hab)
  · intro x
    have hcov := windowPairs_cover (keepBoundaries m 0 detected) 0 d
      (by exact hchain) x
    constructor
    · intro hx
      rcases (hcov.mp hx) with ⟨p, hp, h1, h2⟩
      have hp2 : p ∈ windowPairs (sceneChangesList m d detected) := hp
      rw [← hmapeq] at hp2
      rcases List.mem_map.mp hp2 with ⟨s, hs, hfs⟩
      refine ⟨s, hs, ?_, ?_⟩
      · rw [show s.2.1 = p.1 from by rw [← hfs]] ; exact h1
      · rw [show s.2.2 = p.2 from by rw [← hfs]] ; exact h2
    · rintro ⟨s, hs, h1, h2⟩
      refine hcov.mpr ⟨(s.2.1, s.2.2), ?_, h1, h2⟩
      show (s.2.1, s.2.2) ∈ windowPairs (sceneChangesList m d detected)
      rw [← hmapeq]
      exact List.mem_map.mpr ⟨s, hs, rfl⟩
  · have h := windowPairs_pairwise (sceneChangesList m d detected) hchain
    rw [← hmapeq] at h
    exact (List.pairwise_map.mp h).imp (fun hab => hab)

/-- Witness for C7 at minimum split 1, duration 10, detected boundaries
`[2, 2.5, 5]` (2.5 is merged away): the boundary list starts at 0 and ends
at 10. -/
theorem C7_scene_partition_witness :
    (0 : ℚ) < 1 ∧ (0 : ℚ) ≤ 10 ∧ (∀ b ∈ [(2 : ℚ), 5/2, 5], b ≤ 10) ∧
    (sceneChangesList 1 10 [2, 5/2, 5]).head? = some 0 ∧
    (sceneChangesList 1 10 [2, 5/2, 5]).getLast? = some 10 := by
  have hdet : ∀ b ∈ [(2 : ℚ), 5/2, 5], b ≤ 10 := by
    intro b hb
    fin_cases hb <;> norm_num
  have h := C7_scene_partition 1 10 [2, 5/2, 5] (by norm_num) (by norm_num) hdet
  exact ⟨by norm_num, by norm_num, hdet, h.1, h.2.1⟩

/-- C8.  In the boundary list produced by scene detection, every pair of
consecutive boundaries is at least the configured minimum scene duration
apart — except the final synthetic trailing boundary at the total
duration, which is exempt (the statement is about the list with its last
element dropped). -/
theorem C8_merge_invariant (m d : ℚ) (detected : List ℚ) :
    List.Chain' (fun a b => m ≤ b - a)
      ((sceneChangesList m d detected).dropLast) := by
  unfold sceneChangesList
  rw [List.dropLast_concat]
  show List.Chain (fun a b => m ≤ b - a) 0 (keepBoundaries m 0 detected)
  exact keepBoundaries_chain m 0 detected

/-! ## `format_timecode` (src/shared/lib.rs:609-623)

The Rust function renders the `f32` seconds value to a string, splits on
the decimal point, and parses the integer part as an `i32`
(`timecode[0].parse::<i32>().unwrap()`): the result is the input truncated
toward zero, and the parse panics when it does not fit in an `i32`.  The
four numeric fields of the `HH:MM:SS.mmm` string are then computed from
that integer alone, the milliseconds field as `timecode % 1000`. -/

/-- Truncation toward zero of a rational, as performed by rendering the
number and splitting the string at the decimal point. -/
def ratTrunc (t : ℚ) : ℤ :=
  if 0 ≤ t then ⌊t⌋ else -⌊-t⌋

/-- `format_timecode`: `none` models the `unwrap` panic when the integer
part does not fit in an `i32`; otherwise the `(hours, minutes, seconds,
milliseconds)` fields, computed with `i32` (truncating) division and
remainder from the truncated seconds value `n`: `n / 3600`,
`(n % 3600) / 60`, `n % 60`, and — as the source has it — `n % 1000`. -/
def formatTimecode (t : ℚ) : Option (ℤ × ℤ × ℤ × ℤ) :=
  if -(2 ^ 31) ≤ ratTrunc t ∧ ratTrunc t < 2 ^ 31 then
    some ((ratTrunc t).tdiv 3600, ((ratTrunc t).tmod 3600).tdiv 60,
      (ratTrunc t).tmod 60, (ratTrunc t).tmod 1000)
  else none

/-- C10, counterexample to the claim as stated.  The claim quantifies over
every non-negative finite input, but at `t = 2^31` seconds the
`parse::<i32>().unwrap()` panics (modelled as `none`): no timecode is
returned at all. -/
theorem C10_counterexample : formatTimecode ((2 : ℚ) ^ 31) = none := by
  have htr : ratTrunc ((2 : ℚ) ^ 31) = 2 ^ 31 := by
    unfold ratTrunc
    rw [if_pos (by norm_num),
      show ((2 : ℚ) ^ 31) = ((2 ^ 31 : ℤ) : ℚ) by norm_num, Int.floor_intCast]
  unfold formatTimecode
  rw [htr, if_neg (by norm_num)]

/-- C10, amended.  For every non-negative input whose integer part fits in
an `i32`, `format_timecode` discards the fractional part: the returned
fields are computed from `⌊t⌋` alone — so the result equals the result at
`⌊t⌋` exactly (every cut point is truncated to a whole second) — and the
milliseconds field is `⌊t⌋ % 1000` rather than the sub-second remainder. -/
theorem C10_truncation (t : ℚ) (h0 : 0 ≤ t) (hlt : ⌊t⌋ < 2 ^ 31) :
    formatTimecode t =
      some (⌊t⌋ / 3600, ⌊t⌋ % 3600 / 60, ⌊t⌋ % 60, ⌊t⌋ % 1000) ∧
    formatTimecode t = formatTimecode ((⌊t⌋ : ℤ) : ℚ) := by
  have hfl0 : (0 : ℤ) ≤ ⌊t⌋ := Int.floor_nonneg.mpr h0
  have htr : ratTrunc t = ⌊t⌋ := by
    unfold ratTrunc
    rw [if_pos h0]
  have hran : -(2 ^ 31) ≤ ⌊t⌋ ∧ ⌊t⌋ < 2 ^ 31 := ⟨by linarith, hlt⟩
  constructor
  · unfold formatTimecode
    rw [htr, if_pos hran]
    rw [Int.tdiv_eq_ediv hfl0 (by norm_num),
        Int.tmod_eq_emod hfl0 (by norm_num),
        Int.tmod_eq_emod hfl0 (by norm_num),
        Int.tmod_eq_emod hfl0 (by norm_num),
        Int.tdiv_eq_ediv (Int.emod_nonneg _ (by norm_num)) (by norm_num)]
  · unfold formatTimecode
    rw [htr, show ratTrunc ((⌊t⌋ : ℤ) : ℚ) = ⌊t⌋ by
      unfold ratTrunc
      rw [if_pos (by exact_mod_cast hfl0), Int.floor_intCast]]

/-- Witness for C10 at `t = 3661.75` seconds: the fractional part is
discarded and the milliseconds field is `3661 % 1000 = 661` (not 750). -/
theorem C10_truncation_witness :
    (0 : ℚ) ≤ 14647 / 4 ∧ ⌊(14647 / 4 : ℚ)⌋ < 2 ^ 31 ∧
    formatTimecode (14647 / 4) = some (1, 1, 1, 661) := by
  have hfl : ⌊(14647 / 4 : ℚ)⌋ = 3661 := Int.floor_eq_iff.mpr (by norm_num)
  refine ⟨by norm_num, by rw [hfl]; norm_num, ?_⟩
  have h := (C10_truncation (14647 / 4) (by norm_num) (by rw [hfl]; norm_num)).1
  rw [h, hfl]
  norm_num

/-! ## CheckpointStore and resume
(src/shared/lib.rs:1085-1090, 1144-1258)

On startup with an existing `done.txt`, the driver parses each line with
`line.parse::<i32>().unwrap()` and removes the matching index from both
the (already duration-sorted) scene list and the positionally renumbered
frame list, then seeds the frame progress bar to
`total_frames - Σ (4th components of the remaining frame entries)` using
`u64` subtraction.  (The `scan` at src/shared/lib.rs:1184-1191 looks like
a prefix sum but never writes its accumulator back, so those 4th
components are in fact the per-scene frame counts.) -/

/-- A decimal digit's value, `none` for a non-digit. -/
def digitVal? (c : Char) : Option ℕ :=
  if '0' ≤ c ∧ c ≤ '9' then some (c.toNat - '0'.toNat) else none

/-- Value of a non-empty all-digit character list, `none` otherwise. -/
def digitsVal? (cs : List Char) : Option ℕ :=
  if cs.isEmpty then none
  else cs.foldl
    (fun acc c => acc.bind (fun n => (digitVal? c).map (fun dv => n * 10 + dv)))
    (some 0)

/-- Model of Rust `str::parse::<i32>`: optional sign, a non-empty run of
digits, and an `i32` range check. -/
def parseI32 (s : String) : Option ℤ :=
  match s.toList with
  | '-' :: rest =>
    (digitsVal? rest).bind (fun n =>
      if -(2 ^ 31) ≤ -(n : ℤ) ∧ -(n : ℤ) < 2 ^ 31 then some (-(n : ℤ)) else none)
  | '+' :: rest =>
    (digitsVal? rest).bind (fun n =>
      if -(2 ^ 31) ≤ (n : ℤ) ∧ (n : ℤ) < 2 ^ 31 then some (n : ℤ) else none)
  | cs =>
    (digitsVal? cs).bind (fun n =>
      if -(2 ^ 31) ≤ (n : ℤ) ∧ (n : ℤ) < 2 ^ 31 then some (n : ℤ) else none)

/-- The `for line in done { let line = line.parse::<i32>().unwrap(); .. }`
loop's parsing (src/shared/lib.rs:1211-1212): any unparseable line panics,
modelled as `none` for the whole load. -/
def parseDoneLines : List String → Option (List ℤ)
  | [] => some []
  | l :: ls =>
    match parseI32 l with
    | none => none
    | some d => (parseDoneLines ls).map (fun r => d :: r)

/-- Stable insertion by strictly greater duration: an element goes after
every earlier element of equal or longer duration, matching the stability
of Rust's `sort_by` with the descending-duration comparator
(src/shared/lib.rs:1087). -/
def insertByDurationDesc (x : ℕ × ℚ × ℚ) :
    List (ℕ × ℚ × ℚ) → List (ℕ × ℚ × ℚ)
  | [] => [x]
  | y :: ys =>
    if x.2.2 - x.2.1 > y.2.2 - y.2.1 then x :: y :: ys
    else y :: insertByDurationDesc x ys

/-- `scenes.sort_by(|a, b| (b.2 - b.1).partial_cmp(&(a.2 - a.1)))` followed
by `scenes.reverse()` (src/shared/lib.rs:1085-1090): stable
descending-duration sort, then reversal. -/
def sortScenesForDispatch (l : List (ℕ × ℚ × ℚ)) : List (ℕ × ℚ × ℚ) :=
  (l.foldl (fun acc x => insertByDurationDesc x acc) []).reverse

/-- The per-scene frame entries (src/shared/lib.rs:1150-1173): each scene
of the (sorted) list becomes `(i, start * fps, end * fps, frames)` with a
*fresh* positional counter `i` — not the scene's original index. -/
def framesEntriesFrom (i : ℕ) (fps : ℚ) :
    List (ℕ × ℚ × ℚ) → List (ℕ × ℚ × ℚ × ℚ)
  | [] => []
  | sc :: rest =>
    (i, sc.2.1 * fps, sc.2.2 * fps, sc.2.2 * fps - sc.2.1 * fps) ::
      framesEntriesFrom (i + 1) fps rest

/-- The `scan` over the frame entries (src/shared/lib.rs:1184-1191).  Its
closure computes `let new_sum = *sum + scene_frames;` and emits `new_sum`
— but it never assigns `*sum`, so the accumulator stays at its initial
`0.0` and the emitted 4th component remains the per-scene frame count
(despite the comment's cumulative intent).  The unchanged `sum` parameter
below mirrors that no-op exactly. -/
def scanFrames (sum : ℚ) :
    List (ℕ × ℚ × ℚ × ℚ) → List (ℕ × ℚ × ℚ × ℚ)
  | [] => []
  | e :: rest =>
    (e.1, e.2.1, e.2.2.1, sum + e.2.2.2) :: scanFrames sum rest

/-- The per-line filtering loop over the scene list
(src/shared/lib.rs:1211-1216). -/
def filterDoneScenes (done : List ℤ) (scenes : List (ℕ × ℚ × ℚ)) :
    List (ℕ × ℚ × ℚ) :=
  done.foldl (fun acc d => acc.filter (fun sc => ((sc.1 : ℤ) != d))) scenes

/-- The per-line filtering loop over the frame list
(src/shared/lib.rs:1217-1220). -/
def filterDoneFrames (done : List ℤ) (l : List (ℕ × ℚ × ℚ × ℚ)) :
    List (ℕ × ℚ × ℚ × ℚ) :=
  done.foldl (fun acc d => acc.filter (fun e => ((e.1 : ℤ) != d))) l

/-- Rust `as u64` on an `f32` (saturating toward zero for the non-negative
values arising here). -/
def toU64 (q : ℚ) : ℕ := (⌊q⌋).toNat

/-- `frames_bar.set_position(total_frames - Σ ..)`
(src/shared/lib.rs:1238-1244): the sum of the 4th components of the
remaining frame entries is subtracted from the total frame count in
`u64` arithmetic; an underflow panics (debug), modelled as `none`. -/
def resumePosition (totalFrames : ℕ) (remaining : List (ℕ × ℚ × ℚ × ℚ)) :
    Option ℕ :=
  if (remaining.map (fun e => toU64 e.2.2.2)).sum ≤ totalFrames then
    some (totalFrames - (remaining.map (fun e => toU64 e.2.2.2)).sum)
  else none

/-- The whole resume branch (src/shared/lib.rs:1206-1258), when `done.txt`
exists and contains `doneLines`: parse every line (panic on failure),
filter the dispatch list and the frame list, and seed the progress
position.  Returns the dispatch list and the seeded position. -/
def resumeComputation (boundaries : List ℚ) (fps : ℚ) (totalFrames : ℕ)
    (doneLines : List String) : Option (List (ℕ × ℚ × ℚ) × ℕ) :=
  match parseDoneLines doneLines with
  | none => none
  | some done =>
    (resumePosition totalFrames
        (filterDoneFrames done
          (scanFrames 0
            (framesEntriesFrom 0 fps (sortScenesForDispatch (buildScenes boundaries)))))).map
      (fun pos => (filterDoneScenes done (sortScenesForDispatch (buildScenes boundaries)), pos))

/-- Sequentially filtering a list by each done index equals a single
filter keeping elements whose key is not listed (so duplicate done lines
do not change the outcome). -/
lemma foldl_filter_eq_filter_contains {α : Type} (key : α → ℤ) :
    ∀ (done : List ℤ) (l : List α),
      done.foldl (fun acc d => acc.filter (fun a => (key a != d))) l
        = l.filter (fun a => !(done.contains (key a))) := by
  intro done
  induction done with
  | nil => intro l; simp
  | cons d ds ih =>
    intro l
    rw [List.foldl_cons, ih, List.filter_filter]
    apply List.filter_congr
    intro a _
    by_cases h : key a = d <;> simp [h, List.contains_cons]

/-- The sum the code subtracts from `total_frames` on resume: the
per-scene frame counts of the duration-sorted, positionally renumbered
frame entries whose positional index is not listed in `done.txt`.  Because
the entries are renumbered by sorted position while `done.txt` holds
original scene indices, this need not equal the frames of the scenes that
remain to be encoded. -/
def remainingFrames (bs : List ℚ) (fps : ℚ) (done : List ℤ) : ℕ :=
  (((scanFrames 0
      (framesEntriesFrom 0 fps (sortScenesForDispatch (buildScenes bs)))).filter
        (fun e => !(done.contains (e.1 : ℤ)))).map (fun e => toU64 e.2.2.2)).sum

/-- Unfolding lemma: the resume computation once the checkpoint lines have
parsed successfully. -/
lemma resumeComputation_parsed (bs : List ℚ) (fps : ℚ) (total : ℕ)
    (ls : List String) (done : List ℤ) (hp : parseDoneLines ls = some done) :
    resumeComputation bs fps total ls =
      (resumePosition total
          (filterDoneFrames done
            (scanFrames 0
              (framesEntriesFrom 0 fps (sortScenesForDispatch (buildScenes bs)))))).map
        (fun pos => (filterDoneScenes done (sortScenesForDispatch (buildScenes bs)), pos)) := by
  unfold resumeComputation
  rw [hp]

/-- C5, counterexample to the claim as stated.  Boundaries `[0, 1, 3]`
(scene 0 lasts 1s ⇒ 10 frames, scene 1 lasts 2s ⇒ 20 frames), fps 10,
30 total frames, scene 0 checkpointed: the dispatch set is exactly
scene 1 (that part holds), but the progress position is seeded to 10, not
to `total_frames - frames(scene 0) = 30 - 10 = 20`.  The frame list is
renumbered by duration-sorted position (here the sort swaps the scenes),
while `done.txt` holds original indices, so the positional filter drops
the wrong entry. -/
theorem C5_counterexample :
    resumeComputation [0, 1, 3] 10 30 ["0"] = some ([(1, 1, 3)], 10) ∧
    (10 : ℕ) ≠ 30 - 10 := by
  constructor
  · rw [resumeComputation_parsed [0, 1, 3] 10 30 ["0"] [0] (by decide)]
    norm_num [buildScenes, windowPairs, buildScenesFrom, sortScenesForDispatch,
      insertByDurationDesc, framesEntriesFrom, scanFrames,
      filterDoneScenes, filterDoneFrames, resumePosition, toU64]
    decide
  · norm_num

/-- C5, amended.  On startup with parseable checkpoint lines, the dispatch
list excludes exactly the scene indices listed in `done.txt` (sequential
per-line filtering equals one filter on membership, so duplicates are
harmless), and — when it does not underflow — the progress position is
seeded to `total_frames` minus the sum of the per-scene frame counts of
the entries of the duration-sorted, positionally renumbered frame list
whose positional index is not listed; since that list is renumbered by
sorted position while `done.txt` holds original indices, this is not
`total_frames` minus the frames of the completed scenes. -/
theorem C5_resume_formula (bs : List ℚ) (fps : ℚ) (total : ℕ)
    (ls : List String) (done : List ℤ) (hp : parseDoneLines ls = some done)
    (hsum : remainingFrames bs fps done ≤ total) :
    resumeComputation bs fps total ls =
      some ((sortScenesForDispatch (buildScenes bs)).filter
          (fun sc => !(done.contains (sc.1 : ℤ))),
        total - remainingFrames bs fps done) ∧
    ∀ sc, (sc ∈ (sortScenesForDispatch (buildScenes bs)).filter
          (fun sc => !(done.contains (sc.1 : ℤ))) ↔
      (sc ∈ sortScenesForDispatch (buildScenes bs) ∧ ¬ (sc.1 : ℤ) ∈ done)) := by
  constructor
  · rw [resumeComputation_parsed bs fps total ls done hp]
    unfold filterDoneScenes filterDoneFrames
    rw [foldl_filter_eq_filter_contains (fun sc : ℕ × ℚ × ℚ => (sc.1 : ℤ)) done,
        foldl_filter_eq_filter_contains (fun e : ℕ × ℚ × ℚ × ℚ => (e.1 : ℤ)) done]
    unfold resumePosition
    rw [if_pos (by exact hsum)]
    rfl
  · intro sc
    simp [List.mem_filter]

/-- Witness for the amended C5 at the concrete resume scenario of the
counterexample. -/
theorem C5_resume_formula_witness :
    parseDoneLines ["0"] = some [0] ∧
    remainingFrames [0, 1, 3] 10 [0] ≤ 30 ∧
    resumeComputation [0, 1, 3] 10 30 ["0"] =
      some ((sortScenesForDispatch (buildScenes [0, 1, 3])).filter
          (fun sc => !(([0] : List ℤ).contains (sc.1 : ℤ))),
        30 - remainingFrames [0, 1, 3] 10 [0]) := by
  have hp : parseDoneLines ["0"] = some [0] := by decide
  have hr : remainingFrames [0, 1, 3] 10 [0] = 20 := by
    norm_num [remainingFrames, buildScenes, windowPairs, buildScenesFrom,
      sortScenesForDispatch, insertByDurationDesc, framesEntriesFrom,
      scanFrames, toU64]
    decide
  refine ⟨hp, by rw [hr]; norm_num, ?_⟩
  exact (C5_resume_formula [0, 1, 3] 10 30 ["0"] [0] hp (by rw [hr]; norm_num)).1

/-- C9 (code bug).  Loading the checkpoint does *not* tolerate partial
lines: a line that is not a valid integer makes
`line.parse::<i32>().unwrap()` panic and the resume computation aborts
(here: content `"3\nab"`).  Duplicate indices, on the other hand, are
indeed harmless. -/
theorem C9_load_panics_on_partial_line :
    parseDoneLines ["3", "ab"] = none ∧
    resumeComputation [0, 2, 3] 10 30 ["3", "ab"] = none ∧
    resumeComputation [0, 2, 3] 10 30 ["0", "0"] =
      resumeComputation [0, 2, 3] 10 30 ["0"] := by
  refine ⟨by decide, ?_, ?_⟩
  · unfold resumeComputation
    rw [show parseDoneLines ["3", "ab"] = none from by decide]
  · have h1 : resumeComputation [0, 2, 3] 10 30 ["0", "0"] = some ([(1, 2, 3)], 10) := by
      rw [resumeComputation_parsed [0, 2, 3] 10 30 ["0", "0"] [0, 0] (by decide)]
      norm_num [buildScenes, windowPairs, buildScenesFrom, sortScenesForDispatch,
        insertByDurationDesc, framesEntriesFrom, scanFrames,
        filterDoneScenes, filterDoneFrames, resumePosition, toU64]
      decide
    have h2 : resumeComputation [0, 2, 3] 10 30 ["0"] = some ([(1, 2, 3)], 10) := by
      rw [resumeComputation_parsed [0, 2, 3] 10 30 ["0"] [0] (by decide)]
      norm_num [buildScenes, windowPairs, buildScenesFrom, sortScenesForDispatch,
        insertByDurationDesc, framesEntriesFrom, scanFrames,
        filterDoneScenes, filterDoneFrames, resumePosition, toU64]
      decide
    rw [h1, h2]

/-! ## Assembler: `concatenate_videos` (src/shared/lib.rs:1709-1788) and
its caller (src/shared/lib.rs:1448-1461)

`concatenate_videos` walks the working directory for *any* file whose name
starts with `scene_`, writes them into `list.txt`, shells out to ffmpeg to
concatenate them into `merged_scenes.mkv`, remuxes with `temp.mkv` into
the final output, then deletes the intermediates and every scene artifact.
It never checks that every scene index in `[0, N)` is present.  The caller
deletes `done.txt` iff `concatenate_videos` returned `Ok`. -/

/-- The file-system state the assembly step touches: which scene indices
have a `scene_{i}_encoded.mkv` artifact, and the presence of `temp.mkv`
(side container), `list.txt`, `merged_scenes.mkv`, the final output and
`done.txt`. -/
structure AssemblyState where
  sceneArtifacts : List ℕ
  tempPresent : Bool
  listPresent : Bool
  mergedPresent : Bool
  finalPresent : Bool
  donePresent : Bool
deriving DecidableEq, Repr

/-- `concatenate_videos`: collect whatever `scene_` artifacts exist (no
index-coverage check), concatenate, remux, and on success delete the
merged intermediate, `temp.mkv`, and all scene artifacts.  `concatOk` and
`remuxOk` are the exit-status outcomes of the two ffmpeg invocations.
Returns `(succeeded, new state)`. -/
def concatenateVideos (concatOk remuxOk : Bool) (fs : AssemblyState) :
    Bool × AssemblyState :=
  let fs1 : AssemblyState := { fs with listPresent := true }
  if ¬ concatOk then (false, fs1)
  else
    let fs2 : AssemblyState := { fs1 with mergedPresent := true, listPresent := false }
    if ¬ remuxOk then (false, fs2)
    else
      (true, { fs2 with finalPresent := true, mergedPresent := false,
                        tempPresent := false, sceneArtifacts := [] })

/-- The caller (src/shared/lib.rs:1451-1461): `done.txt` is removed iff
`concatenate_videos` returned `Ok`. -/
def runAssembly (concatOk remuxOk : Bool) (fs : AssemblyState) : AssemblyState :=
  let r := concatenateVideos concatOk remuxOk fs
  if r.1 then { r.2 with donePresent := false } else r.2

/-- C4 (code bug).  For a 4-scene file with artifacts only for scenes
`{0, 1, 3}` (scene 2 missing) and both ffmpeg invocations succeeding —
which they do, since the missing artifact is simply absent from
`list.txt` — assembly *succeeds*: it writes the final output, deletes the
three artifacts and the side container, and the caller clears `done.txt`.
The claim's required fail-closed behaviour does not exist in the code. -/
theorem C4_assembles_despite_missing_scene :
    ((2 : ℕ) ∈ [0, 1, 3]) = False ∧
    runAssembly true true
      { sceneArtifacts := [0, 1, 3], tempPresent := true, listPresent := false,
        mergedPresent := false, finalPresent := false, donePresent := true } =
      { sceneArtifacts := [], tempPresent := false, listPresent := false,
        mergedPresent := false, finalPresent := true, donePresent := false } := by
  constructor
  · simp
  · rfl

end TransRustica
